import Mathlib

/-!
# Verification of the weather-data-pipeline batch ETL

Shallow embedding of the repository's three-stage pipeline
(extract → validate → load) and its two record validators, with proofs of
the specified properties.

Conventions of the embedding:
* Python numeric values (floats/ints read from the weather API JSON) are
  modelled as rationals (`ℚ`), keeping every comparison decidable.
* A Python dict field that may be absent is an `Option`; Python truthiness
  (`if not value`) on a present value is modelled explicitly (`some 0`,
  `some ""`, `some []` are falsy).
* Exceptions are modelled as explicit abort flags / `Option` results.
-/

/-- The `main` block of an observation record
(`main.temp`, `main.feels_like`, …, as read via `.get`). -/
structure MainBlock where
  temp : Option ℚ
  feels_like : Option ℚ
  temp_min : Option ℚ
  temp_max : Option ℚ
  pressure : Option ℚ
  humidity : Option ℚ
deriving DecidableEq, Repr, Inhabited

/-- One element of the `weather` list (`weather[i].main`, `weather[i].description`). -/
structure WeatherCond where
  main : Option String
  description : Option String
deriving DecidableEq, Repr, Inhabited

/-- The `wind` block (`wind.speed`, `wind.deg`). -/
structure WindBlock where
  speed : Option ℚ
  deg : Option ℚ
deriving DecidableEq, Repr, Inhabited

/-- The `clouds` block (`clouds.all`). -/
structure CloudsBlock where
  all : Option ℚ
deriving DecidableEq, Repr, Inhabited

/-- The `sys` block (`sys.country`). -/
structure SysBlock where
  country : Option String
deriving DecidableEq, Repr, Inhabited

/-- The errors the basic validator of `validate.py` can append. -/
inductive BError where
  /-- `"Missing City Name"` -/
  | missingCityName
  /-- `"Missing Temperature"` -/
  | missingTemperature
  /-- `f"Temperature {temp} is unrealistic"` -/
  | tempUnrealistic (t : ℚ)
deriving DecidableEq, Repr

/-- The per-record `_meta` block attached by the Validation Stage
(`validate.py`, `process_batches`): `validated_at` on acceptance,
`validation_errors` on rejection. -/
structure MetaBlock where
  validated_at : Option String
  validation_errors : Option (List BError)
deriving DecidableEq, Repr, Inhabited

/-- One weather observation record as fetched from the API: the JSON
object shape that the validators and the Load stage access. -/
structure WRecord where
  name : Option String
  sys : Option SysBlock
  main : Option MainBlock
  weather : Option (List WeatherCond)
  wind : Option WindBlock
  clouds : Option CloudsBlock
  dt : Option Int
  meta : Option MetaBlock
deriving DecidableEq, Repr, Inhabited

/-- `_get_nested_value(data, "name")` / `data.get("name")`. -/
def getName (r : WRecord) : Option String := r.name

/-- `_get_nested_value(data, "sys.country")`. -/
def getCountry (r : WRecord) : Option String := r.sys.bind (·.country)

/-- `_get_nested_value(data, "main.temp")` / `data.get("main", {}).get("temp")`. -/
def getTemp (r : WRecord) : Option ℚ := r.main.bind (·.temp)

/-- `_get_nested_value(data, "main.humidity")`. -/
def getHumidity (r : WRecord) : Option ℚ := r.main.bind (·.humidity)

/-- `_get_nested_value(data, "main.pressure")`. -/
def getPressure (r : WRecord) : Option ℚ := r.main.bind (·.pressure)

/-- `_get_nested_value(data, "wind.speed")`. -/
def getWindSpeed (r : WRecord) : Option ℚ := r.wind.bind (·.speed)

/-- Python truthiness of an optional string: `None` and `""` are falsy. -/
def falsyStr : Option String → Bool
  | none => true
  | some s => s = ""

/-- Python truthiness of an optional number: `None` and `0` are falsy. -/
def falsyNum : Option ℚ → Bool
  | none => true
  | some q => q = 0

/-- Python truthiness of the optional `weather` list: `None` and `[]` are falsy. -/
def falsyList : Option (List WeatherCond) → Bool
  | none => true
  | some l => l.isEmpty

/-! ## The basic validator (`src/code/ingestion/validate.py`, `WeatherDataValidator.validate`)

Used per record by the Validation Stage. Error messages are modelled by
the structured type `BError` (declared above `MetaBlock`), mirroring the
three `errors.append` sites. -/

/-- `WeatherDataValidator.validate` of `validate.py`: required-presence of
`name` and `main.temp` (Python truthiness), plus the hard temperature range;
`if temp and (temp < -90 or temp > 60)` skips the range check on falsy temp. -/
def basicValidate (r : WRecord) : Bool × List BError :=
  let e1 : List BError := if falsyStr (getName r) then [.missingCityName] else []
  let e2 : List BError := if falsyNum (getTemp r) then [.missingTemperature] else []
  let e3 : List BError :=
    match getTemp r with
    | none => []
    | some t => if t ≠ 0 ∧ (t < -90 ∨ t > 60) then [.tempUnrealistic t] else []
  let errors := e1 ++ e2 ++ e3
  (errors.isEmpty, errors)

/-! ## The strict validator
(`src/code/great_expectation/weather_with_pre_validation.py`,
`WeatherDataValidator.validate`): seven checks, run in order, collecting
all errors and warnings. -/

/-- The six required-field names of `_check_required_fields`. -/
inductive ReqField where
  | cityName
  | countryCode
  | temperature
  | humidity
  | pressure
  | weatherConditions
deriving DecidableEq, Repr

/-- The errors the strict validator can append, one constructor per
`validation_errors.append` site. -/
inductive VError where
  /-- `f"Missing required field: {field_name}"` -/
  | missingField (f : ReqField)
  /-- `f"Temperature {temp}°C is outside valid range (-90°C to 60°C)"` -/
  | tempOutOfRange (t : ℚ)
  /-- `f"Humidity {humidity}% is invalid (must be 0-100%)"` -/
  | humidityInvalid (h : ℚ)
  /-- `f"Pressure {pressure}mb is outside valid range (870-1085mb)"` -/
  | pressureOutOfRange (p : ℚ)
  /-- `f"City name '{city}' is too short"` -/
  | cityTooShort (c : String)
  /-- `f"City name '{city}' is too long"` -/
  | cityTooLong (c : String)
  /-- `f"Country code '{country}' is invalid (must be 2 characters)"` -/
  | countryBadLength (c : String)
  /-- `f"Country code '{country}' must contain only letters"` -/
  | countryNotAlpha (c : String)
  /-- `f"Wind speed cannot be negative: {wind_speed}m/s"` -/
  | windNegative (w : ℚ)
  /-- `f"Wind speed {wind_speed}m/s exceeds maximum recorded wind speed"` -/
  | windTooHigh (w : ℚ)
deriving DecidableEq, Repr

/-- The warnings the strict validator can append, one constructor per
`validation_warnings.append` site. -/
inductive VWarning where
  /-- `f"Temperature {temp}°C is unusual but possible"` -/
  | tempUnusual (t : ℚ)
  /-- `f"Pressure {pressure}mb is unusual (possible extreme weather)"` -/
  | pressureUnusual (p : ℚ)
  /-- `f"City name '{city}' contains unusual characters"` -/
  | cityUnusualChars (c : String)
  /-- `f"Wind speed {wind_speed}m/s indicates hurricane-force winds"` -/
  | windHurricane (w : ℚ)
deriving DecidableEq, Repr

/-- `_check_required_fields`: each missing (falsy) required field appends a
distinct error, in the order of `required_paths`. -/
def checkRequiredFields (r : WRecord) : List VError :=
  (if falsyStr (getName r) then [.missingField .cityName] else []) ++
  (if falsyStr (getCountry r) then [.missingField .countryCode] else []) ++
  (if falsyNum (getTemp r) then [.missingField .temperature] else []) ++
  (if falsyNum (getHumidity r) then [.missingField .humidity] else []) ++
  (if falsyNum (getPressure r) then [.missingField .pressure] else []) ++
  (if falsyList r.weather then [.missingField .weatherConditions] else [])

/-- `_check_temperature`: skipped when `temp is None`; hard range [-90, 60]
gives an error, `temp < -40 or temp > 50` gives a warning (the warning is
not guarded by the hard range). -/
def checkTemperature (r : WRecord) : List VError × List VWarning :=
  match getTemp r with
  | none => ([], [])
  | some t =>
    ((if t < -90 ∨ t > 60 then [.tempOutOfRange t] else []),
     (if t < -40 ∨ t > 50 then [.tempUnusual t] else []))

/-- `_check_humidity`: hard range [0, 100], no warning tier. -/
def checkHumidity (r : WRecord) : List VError :=
  match getHumidity r with
  | none => []
  | some h => if h < 0 ∨ h > 100 then [.humidityInvalid h] else []

/-- `_check_pressure`: hard range [870, 1085] for the error, soft range
outside [950, 1050] for the warning. -/
def checkPressure (r : WRecord) : List VError × List VWarning :=
  match getPressure r with
  | none => ([], [])
  | some p =>
    ((if p < 870 ∨ p > 1085 then [.pressureOutOfRange p] else []),
     (if p < 950 ∨ p > 1050 then [.pressureUnusual p] else []))

/-- `city.replace(' ', '').replace('-', '').replace("'", '')`. -/
def cityStripped (c : String) : List Char :=
  c.data.filter (fun ch => ch ≠ ' ' ∧ ch ≠ '-' ∧ ch ≠ Char.ofNat 39)

/-- Python `str.isalnum()` on a character list: nonempty and all alphanumeric. -/
def pyIsAlnum (l : List Char) : Bool :=
  !l.isEmpty && l.all Char.isAlphanum

/-- `_check_city_name`: length bounds [2, 50] give errors, non-alphanumeric
characters besides space/hyphen/apostrophe give a warning. -/
def checkCityName (r : WRecord) : List VError × List VWarning :=
  match getName r with
  | none => ([], [])
  | some c =>
    ((if c.length < 2 then [.cityTooShort c] else []) ++
       (if c.length > 50 then [.cityTooLong c] else []),
     (if !pyIsAlnum (cityStripped c) then [.cityUnusualChars c] else []))

/-- Python `str.isalpha()`: nonempty and all alphabetic. -/
def pyIsAlpha (s : String) : Bool :=
  !s.data.isEmpty && s.data.all Char.isAlpha

/-- `_check_country_code`: exactly 2 characters, letters only; each
violation is a distinct error. -/
def checkCountryCode (r : WRecord) : List VError :=
  match getCountry r with
  | none => []
  | some c =>
    (if c.length ≠ 2 then [.countryBadLength c] else []) ++
    (if !pyIsAlpha c then [.countryNotAlpha c] else [])

/-- `_check_wind_speed`: negative or above 113 m/s are errors, above
33 m/s is a warning. -/
def checkWindSpeed (r : WRecord) : List VError × List VWarning :=
  match getWindSpeed r with
  | none => ([], [])
  | some w =>
    ((if w < 0 then [.windNegative w] else []) ++
       (if w > 113 then [.windTooHigh w] else []),
     (if w > 33 then [.windHurricane w] else []))

/-- Result triple of the strict validator. -/
structure VResult where
  is_valid : Bool
  errors : List VError
  warnings : List VWarning
deriving DecidableEq, Repr

/-- The strict `WeatherDataValidator.validate`
(`weather_with_pre_validation.py`): runs the seven checks in order,
collects all errors and warnings, `is_valid` iff no errors. -/
def strictValidate (r : WRecord) : VResult :=
  let e1 := checkRequiredFields r
  let tw := checkTemperature r
  let e3 := checkHumidity r
  let pw := checkPressure r
  let cw := checkCityName r
  let e6 := checkCountryCode r
  let ww := checkWindSpeed r
  let errors := e1 ++ tw.1 ++ e3 ++ pw.1 ++ cw.1 ++ e6 ++ ww.1
  ⟨errors.isEmpty, errors, tw.2 ++ pw.2 ++ cw.2 ++ ww.2⟩

/-- Classifier for temperature errors (produced only by `_check_temperature`). -/
def isTempError : VError → Bool
  | .tempOutOfRange _ => true
  | _ => false

/-- Classifier for temperature warnings (produced only by `_check_temperature`). -/
def isTempWarning : VWarning → Bool
  | .tempUnusual _ => true
  | _ => false

/-- A record with every field absent (the empty JSON object `{}`). -/
def emptyRec : WRecord :=
  { name := none, sys := none, main := none, weather := none
    wind := none, clouds := none, dt := none, meta := none }

/-- A `main` block with every field absent. -/
def emptyMain : MainBlock :=
  { temp := none, feels_like := none, temp_min := none
    temp_max := none, pressure := none, humidity := none }


/-! ## The Validation Stage (`src/code/ingestion/validate.py`, `process_batches`)

Per raw batch: validate each record, attach per-record `_meta`, split into
accepted/rejected preserving order, and save each nonempty side. -/

/-- Per-record processing of the loop body in `process_batches`: ensure
`_meta` exists, then set `validated_at` (to the current time `now`) on
acceptance or `validation_errors` on rejection. Returns the annotated
record and the validity flag. -/
def processRecord (now : String) (r : WRecord) : WRecord × Bool :=
  let v := basicValidate r
  let m := r.meta.getD ⟨none, none⟩
  if v.1 then
    ({ r with meta := some { m with validated_at := some now } }, true)
  else
    ({ r with meta := some { m with validation_errors := some v.2 } }, false)

/-- The record loop of `process_batches`: builds `valid_batch` and
`rejected_batch` in input order (modelled by structural recursion instead
of the two mutable accumulator lists). -/
def partitionRecords (now : String) : List WRecord → List WRecord × List WRecord
  | [] => ([], [])
  | r :: rest =>
    let p := processRecord now r
    let vr := partitionRecords now rest
    if p.2 then (p.1 :: vr.1, vr.2) else (vr.1, p.1 :: vr.2)

/-- `save_batch` of `validate.py`: an empty list produces no blob
(`if not data: return`), a nonempty one produces a blob with the data. -/
def save_batch (data : List WRecord) : Option (List WRecord) :=
  if data.isEmpty then none else some data

/-- The two output blobs the Validation Stage writes for one raw batch. -/
structure BatchOutputs where
  validatedBlob : Option (List WRecord)
  rejectedBlob : Option (List WRecord)
deriving DecidableEq, Repr

/-- Processing of one raw batch in `process_batches`: partition the
records, then `save_batch` each side. -/
def processOneBatch (now : String) (records : List WRecord) : BatchOutputs :=
  let vr := partitionRecords now records
  ⟨save_batch vr.1, save_batch vr.2⟩

/-! ## The S3 Validation Stage, for the raw-blob retirement claim

Storage areas are association lists keyed by blob name. -/

/-- Lookup by key in a storage area (first match). -/
def lookupKey {β : Type} (k : String) : List (String × β) → Option β
  | [] => none
  | e :: t => if e.1 = k then some e.2 else lookupKey k t

/-- Deletion of every blob with the given key. -/
def removeKey {β : Type} (k : String) : List (String × β) → List (String × β)
  | [] => []
  | e :: t => if e.1 = k then removeKey k t else e :: removeKey k t

/-- The four staging areas of the pipeline's blob store. -/
structure S3State where
  raw : List (String × List WRecord)
  validated : List (String × List WRecord)
  rejected : List (String × List WRecord)
  archive : List (String × List WRecord)
deriving DecidableEq, Repr

/-- One storage effect of the S3 Validation Stage. -/
inductive StageEffect where
  | putValidated (k : String) (d : List WRecord)
  | putRejected (k : String) (d : List WRecord)
  | moveRawToArchive (k : String)
deriving DecidableEq, Repr

/-- Whether an effect is an output write (not the retire move). -/
def isPutEffect : StageEffect → Bool
  | .putValidated _ _ => true
  | .putRejected _ _ => true
  | .moveRawToArchive _ => false

/-- Modelled from the spec: `process_s3_batches`, the S3 Validation Stage
that the Airflow DAG (`weather_dag.py`) imports from `ingestion.validate`,
is not present under `src/`; only its caller and the blob-store
collaborator (`s3_utils.move_s3_object`, which copies a blob from
`data/raw/...` to `data/archive/...` and deletes the original) are.
Per-record validation and the save-only-if-nonempty rule follow the
sibling `process_batches` in `src/code/ingestion/validate.py`; the retire
step follows the spec's "Write the accepted list as a new 'validated' blob
and the rejected list as a new 'rejected' blob (only written if
non-empty); then retire the original raw blob to archive", with retiring
as the last effect. This function gives the ordered effect trace for one
raw batch. -/
def validateStageEffects (now : String) (k : String) (records : List WRecord) :
    List StageEffect :=
  let out := processOneBatch now records
  (match out.validatedBlob with
   | some d => [StageEffect.putValidated (k ++ "_valid") d]
   | none => []) ++
  (match out.rejectedBlob with
   | some d => [StageEffect.putRejected (k ++ "_rejected") d]
   | none => []) ++
  [StageEffect.moveRawToArchive k]

/-- Interpretation of one storage effect on the blob store. The move is
copy-then-delete (`move_s3_object`): the blob content found under the key
in raw is written to archive (overwriting any archive blob of that key,
as `copy_object` does) and the raw key is deleted. -/
def applyEffect (s : S3State) : StageEffect → S3State
  | .putValidated k d => { s with validated := s.validated ++ [(k, d)] }
  | .putRejected k d => { s with rejected := s.rejected ++ [(k, d)] }
  | .moveRawToArchive k =>
    match lookupKey k s.raw with
    | none => s
    | some b =>
      { s with
        archive := removeKey k s.archive ++ [(k, b)]
        raw := removeKey k s.raw }

/-- Modelled from the spec: the S3 Validation Stage's handling of one raw
blob `k` — decode it, compute the effect trace, and apply it to the store. -/
def processS3Batch (now : String) (s : S3State) (k : String) : S3State :=
  match lookupKey k s.raw with
  | none => s
  | some records => (validateStageEffects now k records).foldl applyEffect s

/-! ## The Extraction Stage (`src/code/ingestion/extract.py`, `run_extraction`)

The fetch results are presented as a list of `Option WRecord` in city
order: `none` models a failed fetch (`fetch_weather` returned `None`). -/

/-- The loop state of `run_extraction`: batches saved so far (as
`(batch_number, records)` pairs, one per `save_batch` call with nonempty
data), the in-memory buffer, `batch_count`, and `total_fetched`. -/
structure ExtractionState where
  savedBatches : List (Nat × List WRecord)
  buffer : List WRecord
  batch_count : Nat
  total_fetched : Nat
deriving DecidableEq, Repr

/-- One iteration of the city loop in `run_extraction`: append a
successful fetch to the buffer, then flush the buffer as a batch when it
has reached `batchSize`. -/
def extractStep (batchSize : Nat) (st : ExtractionState) (fetched : Option WRecord) :
    ExtractionState :=
  let st :=
    match fetched with
    | some d => { st with buffer := st.buffer ++ [d]
                          total_fetched := st.total_fetched + 1 }
    | none => st
  if batchSize ≤ st.buffer.length then
    { st with savedBatches := st.savedBatches ++ [(st.batch_count, st.buffer)]
              buffer := []
              batch_count := st.batch_count + 1 }
  else st

/-- `BATCH_SIZE` of `extract.py`. -/
def BATCH_SIZE : Nat := 50

/-- `run_extraction` over a list of fetch results: the city loop followed
by the trailing `if batch_buffer: save_batch(...)` flush of leftovers.
Returns the saved batches in order. -/
def run_extraction (batchSize : Nat) (results : List (Option WRecord)) :
    List (Nat × List WRecord) :=
  let st := results.foldl (extractStep batchSize) ⟨[], [], 1, 0⟩
  if st.buffer.isEmpty then st.savedBatches
  else st.savedBatches ++ [(st.batch_count, st.buffer)]

/-- The Batch Assembler (§4.2): `run_extraction` in the case where every
fetch succeeds, i.e. chunking a record sequence into batches. -/
def assemble (records : List WRecord) (batchSize : Nat) : List (Nat × List WRecord) :=
  run_extraction batchSize (records.map some)


/-! ## The Load Stage (`src/code/ingestion/load.py`, `load_batch` / `run_loading`)

The warehouse table `weather_data` is a list of rows (in insertion order;
the surrogate `id` is the position). The `ingestion_timestamp` column,
refreshed to `CURRENT_TIMESTAMP()` on every merge, is outside the modelled
state, matching the spec's idempotence reading. -/

/-- One warehouse row, with the fields the `MERGE` statement inserts.
`city` is `record.get('name')` and may be SQL `NULL`; `timestamp` is
`datetime.fromtimestamp(record['dt'])`, never `NULL` (a missing `dt`
raises before the merge). -/
structure WRow where
  city : Option String
  country : String
  temperature : Option ℚ
  feels_like : Option ℚ
  temp_min : Option ℚ
  temp_max : Option ℚ
  pressure : Option ℚ
  humidity : Option ℚ
  weather_main : String
  weather_description : String
  wind_speed : Option ℚ
  wind_deg : Option ℚ
  clouds : Option ℚ
  timestamp : Int
deriving DecidableEq, Repr

/-- The field-extraction block of `load_batch` (lines 76–102). `none`
models an uncaught exception: `datetime.fromtimestamp(None)` when `dt` is
missing, or `record.get('weather', [{}])[0]` on an explicitly empty
`weather` list. These raises happen outside the per-record
`try/except`, so they abort the whole batch. -/
def extractRow (r : WRecord) : Option WRow :=
  match r.dt with
  | none => none
  | some dtv =>
    match (match r.weather with
           | none => some { main := none, description := none }
           | some [] => none
           | some (c :: _) => some c : Option WeatherCond) with
    | none => none
    | some w =>
      let m := r.main.getD emptyMain
      some
        { city := r.name
          country := ((r.sys.getD ⟨none⟩).country).getD ""
          temperature := m.temp
          feels_like := m.feels_like
          temp_min := m.temp_min
          temp_max := m.temp_max
          pressure := m.pressure
          humidity := m.humidity
          weather_main := w.main.getD ""
          weather_description := w.description.getD ""
          wind_speed := r.wind.bind (·.speed)
          wind_deg := r.wind.bind (·.deg)
          clouds := r.clouds.bind (·.all)
          timestamp := dtv }

/-- SQL equality on a nullable column: `NULL = x` is never true. -/
def sqlEqStr : Option String → Option String → Bool
  | some a, some b => a = b
  | _, _ => false

/-- The `ON` condition of the `MERGE`:
`target.city = source.city AND target.timestamp = source.obs_time`,
for target row `t` and source row `src`. -/
def isMatch (t : WRow) (src : WRow) : Bool :=
  sqlEqStr t.city src.city && t.timestamp = src.timestamp

/-- The `WHEN MATCHED` update: set `temperature`, `humidity` and
`weather_description` from the source (and refresh `ingestion_timestamp`,
which is outside the modelled state). -/
def updateRow (src : WRow) (t : WRow) : WRow :=
  if isMatch t src then
    { t with temperature := src.temperature
             humidity := src.humidity
             weather_description := src.weather_description }
  else t

/-- The `MERGE` statement for one source row: update every matched target
row, or insert the full row when none matches. -/
def mergeRow (w : List WRow) (src : WRow) : List WRow :=
  if w.any (fun t => isMatch t src) then w.map (updateRow src)
  else w ++ [src]

/-- The record loop of `load_batch`. `execOk` models whether the
warehouse accepts the `cursor.execute` of the merge for a given row; a
failure there is caught by the per-record `try/except` and the record is
skipped. A failure in `extractRow` is *not* caught: the loop stops and
the batch is reported failed (second component `false`). The third
component is `success_count`. -/
def loadRecords (execOk : WRow → Bool) (w : List WRow) :
    List WRecord → List WRow × Bool × Nat
  | [] => (w, true, 0)
  | r :: rest =>
    match extractRow r with
    | none => (w, false, 0)
    | some row =>
      if execOk row then
        let res := loadRecords execOk (mergeRow w row) rest
        (res.1, res.2.1, res.2.2 + 1)
      else loadRecords execOk w rest

/-- The file loop of `run_loading`: load each validated blob; on success
(`load_batch` returned) move the blob to archive, on an exception leave it
in place. Returns (final warehouse, blobs left in validated staging,
blobs moved to archive). -/
def run_loading (execOk : WRow → Bool) (w : List WRow) :
    List (String × List WRecord) →
      List WRow × List (String × List WRecord) × List (String × List WRecord)
  | [] => (w, [], [])
  | (k, records) :: rest =>
    let res := loadRecords execOk w records
    let tail := run_loading execOk res.1 rest
    if res.2.1 then (tail.1, tail.2.1, (k, records) :: tail.2.2)
    else (tail.1, (k, records) :: tail.2.1, tail.2.2)


/-! ## Concrete records used by counterexamples and witnesses -/

/-- A well-formed Antarctic record with temperature −150 °C. -/
def rVostok : WRecord :=
  { emptyRec with
    name := some "Vostok", sys := some ⟨some "AQ"⟩
    main := some { emptyMain with
      temp := some (-150), pressure := some 1000, humidity := some 60 }
    weather := some [⟨some "Clear", some "clear sky"⟩] }

/-- A record whose country code, humidity, pressure and conditions are
missing, but with city name and temperature present. -/
def rNameTempOnly : WRecord :=
  { emptyRec with
    name := some "London", main := some { emptyMain with temp := some 20 } }

/-- A record that is fully present except `main.humidity`, which is `0`. -/
def rHumZero : WRecord :=
  { emptyRec with
    name := some "London", sys := some ⟨some "GB"⟩
    main := some { emptyMain with
      temp := some 20, humidity := some 0, pressure := some 1000 }
    weather := some [⟨some "Clouds", some "overcast"⟩] }

/-- A record whose temperature is present but `0`. -/
def rTempZero : WRecord :=
  { emptyRec with main := some { emptyMain with temp := some 0 } }

/-! ## Lemmas about the strict validator's error/warning provenance -/

theorem filter_tempError_required (r : WRecord) :
    (checkRequiredFields r).filter isTempError = [] := by
  unfold checkRequiredFields
  split_ifs <;> rfl

theorem filter_tempError_humidity (r : WRecord) :
    (checkHumidity r).filter isTempError = [] := by
  unfold checkHumidity
  cases getHumidity r with
  | none => rfl
  | some h => dsimp only; split_ifs <;> rfl

theorem filter_tempError_pressure (r : WRecord) :
    (checkPressure r).1.filter isTempError = [] := by
  unfold checkPressure
  cases getPressure r with
  | none => rfl
  | some p => dsimp only; split_ifs <;> rfl

theorem filter_tempError_city (r : WRecord) :
    (checkCityName r).1.filter isTempError = [] := by
  unfold checkCityName
  cases getName r with
  | none => rfl
  | some c => dsimp only; split_ifs <;> rfl

theorem filter_tempError_country (r : WRecord) :
    (checkCountryCode r).filter isTempError = [] := by
  unfold checkCountryCode
  cases getCountry r with
  | none => rfl
  | some c => dsimp only; split_ifs <;> rfl

theorem filter_tempError_wind (r : WRecord) :
    (checkWindSpeed r).1.filter isTempError = [] := by
  unfold checkWindSpeed
  cases getWindSpeed r with
  | none => rfl
  | some w => dsimp only; split_ifs <;> rfl

theorem filter_tempWarning_pressure (r : WRecord) :
    (checkPressure r).2.filter isTempWarning = [] := by
  unfold checkPressure
  cases getPressure r with
  | none => rfl
  | some p => dsimp only; split_ifs <;> rfl

theorem filter_tempWarning_city (r : WRecord) :
    (checkCityName r).2.filter isTempWarning = [] := by
  unfold checkCityName
  cases getName r with
  | none => rfl
  | some c => dsimp only; split_ifs <;> rfl

theorem filter_tempWarning_wind (r : WRecord) :
    (checkWindSpeed r).2.filter isTempWarning = [] := by
  unfold checkWindSpeed
  cases getWindSpeed r with
  | none => rfl
  | some w => dsimp only; split_ifs <;> rfl

/-- The temperature errors and warnings of the strict validator are exactly
those of `_check_temperature`. -/
theorem strictValidate_temp_filters (r : WRecord) (t : ℚ) (h : getTemp r = some t) :
    (strictValidate r).errors.filter isTempError =
      (if t < -90 ∨ t > 60 then [VError.tempOutOfRange t] else []) ∧
    (strictValidate r).warnings.filter isTempWarning =
      (if t < -40 ∨ t > 50 then [VWarning.tempUnusual t] else []) := by
  have hT : checkTemperature r =
      ((if t < -90 ∨ t > 60 then [VError.tempOutOfRange t] else []),
       (if t < -40 ∨ t > 50 then [VWarning.tempUnusual t] else [])) := by
    unfold checkTemperature
    rw [h]
  constructor
  · show ((checkRequiredFields r ++ (checkTemperature r).1 ++ checkHumidity r ++
      (checkPressure r).1 ++ (checkCityName r).1 ++ checkCountryCode r ++
      (checkWindSpeed r).1).filter isTempError) = _
    simp only [List.filter_append, filter_tempError_required,
      filter_tempError_humidity, filter_tempError_pressure,
      filter_tempError_city, filter_tempError_country, filter_tempError_wind,
      hT, List.append_nil, List.nil_append]
    split_ifs <;> rfl
  · show (((checkTemperature r).2 ++ (checkPressure r).2 ++ (checkCityName r).2 ++
      (checkWindSpeed r).2).filter isTempWarning) = _
    simp only [List.filter_append, filter_tempWarning_pressure,
      filter_tempWarning_city, filter_tempWarning_wind,
      hT, List.append_nil, List.nil_append]
    split_ifs <;> rfl

theorem isEmpty_false_of_mem {α : Type} {l : List α} {x : α} (h : x ∈ l) :
    l.isEmpty = false := by
  cases l with
  | nil => cases h
  | cons a t => rfl

/-- An error member makes the strict validator reject. -/
theorem strict_invalid_of_mem (r : WRecord) (e : VError)
    (he : e ∈ (strictValidate r).errors) : (strictValidate r).is_valid = false :=
  isEmpty_false_of_mem he

/-- An error member makes the basic validator reject. -/
theorem basic_invalid_of_mem (r : WRecord) (e : BError)
    (he : e ∈ (basicValidate r).2) : (basicValidate r).1 = false :=
  isEmpty_false_of_mem he

/-- C4 (amended): for the strict validator, temperatures in [-90, 60]
produce no temperature error, temperatures in (-40, 50) produce no
temperature warning, and temperature = -150 produces exactly one
temperature error AND exactly one temperature warning — the out-of-range
error does not suppress the soft-range warning, since
`_check_temperature` emits the warning whenever `temp < -40 or temp > 50`
regardless of the hard range. -/
theorem strict_temperature_tier_behaviour (r : WRecord) (t : ℚ)
    (h : getTemp r = some t) :
    ((-90 ≤ t ∧ t ≤ 60) → (strictValidate r).errors.filter isTempError = []) ∧
    ((-40 < t ∧ t < 50) → (strictValidate r).warnings.filter isTempWarning = []) ∧
    (t = -150 →
      ((strictValidate r).errors.filter isTempError).length = 1 ∧
      ((strictValidate r).warnings.filter isTempWarning).length = 1) := by
  obtain ⟨he, hw⟩ := strictValidate_temp_filters r t h
  refine ⟨fun hr => ?_, fun hr => ?_, fun hr => ?_⟩
  · rw [he, if_neg]
    rintro (h1 | h1) <;> linarith [hr.1, hr.2]
  · rw [hw, if_neg]
    rintro (h1 | h1) <;> linarith [hr.1, hr.2]
  · subst hr
    rw [he, hw, if_pos (by norm_num), if_pos (by norm_num)]
    exact ⟨rfl, rfl⟩

/-- C4 counterexample: a record with temperature −150 gets one temperature
warning, not zero — the claim's "zero temperature warnings (the error
supersedes the warning tier)" is false on the code. -/
theorem temp_minus150_also_warns :
    getTemp rVostok = some (-150) ∧
    ((strictValidate rVostok).warnings.filter isTempWarning).length = 1 := by
  decide

/-- C4 witness at temperature −150. -/
theorem strict_temperature_tier_witness :
    ((strictValidate rVostok).errors.filter isTempError).length = 1 ∧
    ((strictValidate rVostok).warnings.filter isTempWarning).length = 1 :=
  (strict_temperature_tier_behaviour rVostok (-150) (by decide)).2.2 (by decide)

/-- C5 (amended): for the STRICT validator, each missing required field
yields `is_valid = false` and the distinct `Missing required field` error
naming it. (The basic validator of `validate.py` checks only city name
and temperature; see the counterexample.) -/
theorem strict_missing_field_errors (r : WRecord) :
    (getName r = none →
      VError.missingField .cityName ∈ (strictValidate r).errors ∧
      (strictValidate r).is_valid = false) ∧
    (getCountry r = none →
      VError.missingField .countryCode ∈ (strictValidate r).errors ∧
      (strictValidate r).is_valid = false) ∧
    (getTemp r = none →
      VError.missingField .temperature ∈ (strictValidate r).errors ∧
      (strictValidate r).is_valid = false) ∧
    (getHumidity r = none →
      VError.missingField .humidity ∈ (strictValidate r).errors ∧
      (strictValidate r).is_valid = false) ∧
    (getPressure r = none →
      VError.missingField .pressure ∈ (strictValidate r).errors ∧
      (strictValidate r).is_valid = false) ∧
    (r.weather = none →
      VError.missingField .weatherConditions ∈ (strictValidate r).errors ∧
      (strictValidate r).is_valid = false) := by
  refine ⟨fun h => ?_, fun h => ?_, fun h => ?_, fun h => ?_, fun h => ?_,
    fun h => ?_⟩ <;>
  · refine (fun hm => ⟨hm, strict_invalid_of_mem r _ hm⟩) ?_
    simp [strictValidate, checkRequiredFields, falsyStr, falsyNum, falsyList, h]

/-- C5 counterexample: the basic validator of `validate.py` accepts a
record whose country code, humidity, pressure and condition list are all
missing — `validate` there does not name those required fields. -/
theorem basic_validator_ignores_other_required_fields :
    getCountry rNameTempOnly = none ∧ getHumidity rNameTempOnly = none ∧
    getPressure rNameTempOnly = none ∧ rNameTempOnly.weather = none ∧
    basicValidate rNameTempOnly = (true, []) := by decide

/-- C5 witness: the empty record, whose city name is missing. -/
theorem strict_missing_field_errors_witness :
    VError.missingField .cityName ∈ (strictValidate emptyRec).errors ∧
    (strictValidate emptyRec).is_valid = false :=
  (strict_missing_field_errors emptyRec).1 rfl

/-- C9 (amended): a required field that is present but falsy is treated as
missing — in the strict validator for temperature 0, humidity 0,
pressure 0 and the empty city name, and in the basic validator for the
two fields it checks (temperature 0, empty city name). -/
theorem falsy_required_fields_treated_missing (r : WRecord) :
    (getTemp r = some 0 →
      (VError.missingField .temperature ∈ (strictValidate r).errors ∧
        (strictValidate r).is_valid = false) ∧
      (BError.missingTemperature ∈ (basicValidate r).2 ∧
        (basicValidate r).1 = false)) ∧
    (getHumidity r = some 0 →
      VError.missingField .humidity ∈ (strictValidate r).errors ∧
      (strictValidate r).is_valid = false) ∧
    (getPressure r = some 0 →
      VError.missingField .pressure ∈ (strictValidate r).errors ∧
      (strictValidate r).is_valid = false) ∧
    (getName r = some "" →
      (VError.missingField .cityName ∈ (strictValidate r).errors ∧
        (strictValidate r).is_valid = false) ∧
      (BError.missingCityName ∈ (basicValidate r).2 ∧
        (basicValidate r).1 = false)) := by
  refine ⟨fun h => ⟨⟨?_, ?_⟩, ?_, ?_⟩, fun h => ⟨?_, ?_⟩, fun h => ⟨?_, ?_⟩,
    fun h => ⟨⟨?_, ?_⟩, ?_, ?_⟩⟩
  · simp [strictValidate, checkRequiredFields, falsyStr, falsyNum, falsyList, h]
  · exact strict_invalid_of_mem r (VError.missingField .temperature) (by
      simp [strictValidate, checkRequiredFields, falsyStr, falsyNum, falsyList, h])
  · simp [basicValidate, falsyStr, falsyNum, h]
  · exact basic_invalid_of_mem r BError.missingTemperature (by
      simp [basicValidate, falsyStr, falsyNum, h])
  · simp [strictValidate, checkRequiredFields, falsyStr, falsyNum, falsyList, h]
  · exact strict_invalid_of_mem r (VError.missingField .humidity) (by
      simp [strictValidate, checkRequiredFields, falsyStr, falsyNum, falsyList, h])
  · simp [strictValidate, checkRequiredFields, falsyStr, falsyNum, falsyList, h]
  · exact strict_invalid_of_mem r (VError.missingField .pressure) (by
      simp [strictValidate, checkRequiredFields, falsyStr, falsyNum, falsyList, h])
  · simp [strictValidate, checkRequiredFields, falsyStr, falsyNum, falsyList, h]
  · exact strict_invalid_of_mem r (VError.missingField .cityName) (by
      simp [strictValidate, checkRequiredFields, falsyStr, falsyNum, falsyList, h])
  · simp [basicValidate, falsyStr, falsyNum, h]
  · exact basic_invalid_of_mem r BError.missingCityName (by
      simp [basicValidate, falsyStr, falsyNum, h])

/-- C9 counterexample: the basic validator accepts a record whose humidity
is present and equal to 0 — no missing-field error is reported for it,
contradicting the claim for "both the strict and the basic validator". -/
theorem basic_validator_accepts_zero_humidity :
    getHumidity rHumZero = some 0 ∧ basicValidate rHumZero = (true, []) := by
  decide

/-- C9 witness at temperature 0. -/
theorem falsy_required_fields_witness :
    (VError.missingField .temperature ∈ (strictValidate rTempZero).errors ∧
      (strictValidate rTempZero).is_valid = false) ∧
    (BError.missingTemperature ∈ (basicValidate rTempZero).2 ∧
      (basicValidate rTempZero).1 = false) :=
  (falsy_required_fields_treated_missing rTempZero).1 (by decide)

/-! ## Validation Stage theorems -/

theorem processRecord_snd (now : String) (r : WRecord) :
    (processRecord now r).2 = (basicValidate r).1 := by
  unfold processRecord
  by_cases hb : (basicValidate r).1 <;> simp [hb]

theorem partition_all_invalid (now : String) (records : List WRecord)
    (h : ∀ r ∈ records, (basicValidate r).1 = false) :
    (partitionRecords now records).1 = [] ∧
    (partitionRecords now records).2.length = records.length := by
  induction records with
  | nil => exact ⟨rfl, rfl⟩
  | cons r rest ih =>
    have hr := h r (List.mem_cons_self r rest)
    have ih' := ih (fun x hx => h x (List.mem_cons_of_mem _ hx))
    have hp : (processRecord now r).2 = false := by rw [processRecord_snd]; exact hr
    simp only [partitionRecords, hp]
    simp [ih'.1, ih'.2]

/-- C10: the Validation Stage writes no empty output blob: the validated
(resp. rejected) blob exists iff the accepted (resp. rejected) list is
nonempty; in particular a nonempty batch in which every record is rejected
produces a rejected blob but no validated blob. -/
theorem validation_stage_never_writes_empty_blob (now : String)
    (records : List WRecord) :
    ((processOneBatch now records).validatedBlob = none ↔
      (partitionRecords now records).1 = []) ∧
    ((processOneBatch now records).rejectedBlob = none ↔
      (partitionRecords now records).2 = []) ∧
    ((records ≠ [] ∧ ∀ r ∈ records, (basicValidate r).1 = false) →
      (processOneBatch now records).validatedBlob = none ∧
      (processOneBatch now records).rejectedBlob ≠ none) := by
  have hsv : ∀ l : List WRecord, save_batch l = none ↔ l = [] := by
    intro l; cases l <;> simp [save_batch]
  refine ⟨hsv _, hsv _, fun hh => ?_⟩
  obtain ⟨h1, h2⟩ := partition_all_invalid now records hh.2
  refine ⟨(hsv _).mpr h1, fun hnone => ?_⟩
  rw [(hsv _).mp hnone] at h2
  exact hh.1 (List.length_eq_zero.mp h2.symm)

/-- C10 witness: a batch with one (all-fields-missing, hence rejected)
record. -/
theorem validation_stage_empty_blob_witness :
    (processOneBatch "T" [emptyRec]).validatedBlob = none ∧
    (processOneBatch "T" [emptyRec]).rejectedBlob ≠ none :=
  (validation_stage_never_writes_empty_blob "T" [emptyRec]).2.2
    ⟨by decide, by decide⟩

/-- A record whose `_meta`, if present, carries neither validation key
(all records produced by the Extraction Stage are of this shape: they
carry no record-level `_meta` at all). -/
def metaClean (r : WRecord) : Bool :=
  match r.meta with
  | none => true
  | some m => m.validated_at.isNone && m.validation_errors.isNone

theorem processRecord_meta (now : String) (r : WRecord)
    (h : metaClean r = true) :
    ((processRecord now r).1.meta = some ⟨some now, none⟩ ∧
      (processRecord now r).2 = true) ∨
    ((processRecord now r).1.meta = some ⟨none, some (basicValidate r).2⟩ ∧
      (processRecord now r).2 = false) := by
  have hm : r.meta.getD ⟨none, none⟩ = ⟨none, none⟩ := by
    cases hmm : r.meta with
    | none => rfl
    | some m =>
      simp only [metaClean, hmm, Bool.and_eq_true, Option.isNone_iff_eq_none] at h
      cases m
      simp_all
  unfold processRecord
  simp only [hm]
  by_cases hb : (basicValidate r).1 <;> simp [hb]

/-- C7: after the Validation Stage processes a batch of metadata-clean
records, every accepted record carries exactly `validated_at` (and no
`validation_errors`), and every rejected record carries exactly
`validation_errors` (and no `validated_at`) — exactly one of the two keys,
never both. -/
theorem validated_records_meta_exactly_one (now : String)
    (records : List WRecord) (h : ∀ r ∈ records, metaClean r = true) :
    (∀ x ∈ (partitionRecords now records).1,
      x.meta = some ⟨some now, none⟩) ∧
    (∀ x ∈ (partitionRecords now records).2,
      ∃ errs, x.meta = some ⟨none, some errs⟩) := by
  induction records with
  | nil => exact ⟨fun x hx => absurd hx (List.not_mem_nil x),
      fun x hx => absurd hx (List.not_mem_nil x)⟩
  | cons r rest ih =>
    have hr := h r (List.mem_cons_self r rest)
    have ih' := ih (fun x hx => h x (List.mem_cons_of_mem _ hx))
    rcases processRecord_meta now r hr with ⟨hm, hv⟩ | ⟨hm, hv⟩
    · constructor
      · intro x hx
        simp only [partitionRecords, hv, if_true] at hx
        rcases List.mem_cons.mp hx with he | ht
        · rw [he]; exact hm
        · exact ih'.1 x ht
      · intro x hx
        simp only [partitionRecords, hv, if_true] at hx
        exact ih'.2 x hx
    · constructor
      · intro x hx
        simp only [partitionRecords, hv, Bool.false_eq_true, if_false] at hx
        exact ih'.1 x hx
      · intro x hx
        simp only [partitionRecords, hv, Bool.false_eq_true, if_false] at hx
        rcases List.mem_cons.mp hx with he | ht
        · rw [he]; exact ⟨(basicValidate r).2, hm⟩
        · exact ih'.2 x ht

/-- C7 witness: the accepted record of a two-record batch carries exactly
the `validated_at` key. -/
theorem validated_records_meta_witness :
    (processRecord "T" rNameTempOnly).1.meta = some ⟨some "T", none⟩ :=
  (validated_records_meta_exactly_one "T" [rNameTempOnly, emptyRec]
    (by decide)).1 (processRecord "T" rNameTempOnly).1 (by decide)


/-! ## S3 Validation Stage theorems (raw-blob retirement) -/

theorem lookupKey_cons {β : Type} (k : String) (e : String × β)
    (t : List (String × β)) :
    lookupKey k (e :: t) = if e.1 = k then some e.2 else lookupKey k t := rfl

theorem removeKey_cons {β : Type} (k : String) (e : String × β)
    (t : List (String × β)) :
    removeKey k (e :: t) = if e.1 = k then removeKey k t
      else e :: removeKey k t := rfl

theorem lookupKey_removeKey {β : Type} (k : String) (l : List (String × β)) :
    lookupKey k (removeKey k l) = none := by
  induction l with
  | nil => rfl
  | cons e t ih =>
    rw [removeKey_cons]
    by_cases he : e.1 = k
    · rw [if_pos he]; exact ih
    · rw [if_neg he, lookupKey_cons, if_neg he]; exact ih

theorem lookupKey_append_of_none {β : Type} (k : String)
    (l1 l2 : List (String × β)) (h : lookupKey k l1 = none) :
    lookupKey k (l1 ++ l2) = lookupKey k l2 := by
  induction l1 with
  | nil => rfl
  | cons e t ih =>
    by_cases he : e.1 = k
    · rw [lookupKey_cons, if_pos he] at h; exact Option.noConfusion h
    · rw [lookupKey_cons, if_neg he] at h
      rw [List.cons_append, lookupKey_cons, if_neg he]
      exact ih h

theorem foldl_puts_preserve (es : List StageEffect)
    (hp : ∀ e ∈ es, isPutEffect e = true) :
    ∀ s : S3State, (es.foldl applyEffect s).raw = s.raw ∧
      (es.foldl applyEffect s).archive = s.archive := by
  induction es with
  | nil => exact fun s => ⟨rfl, rfl⟩
  | cons e t ih =>
    intro s
    have ht := ih (fun x hx => hp x (List.mem_cons_of_mem _ hx))
    cases e with
    | putValidated k d =>
      simpa [List.foldl_cons, applyEffect] using ht _
    | putRejected k d =>
      simpa [List.foldl_cons, applyEffect] using ht _
    | moveRawToArchive k =>
      have := hp _ (List.mem_cons_self _ t)
      simp [isPutEffect] at this

theorem apply_pre_move (s : S3State) (pre : List StageEffect)
    (hp : ∀ e ∈ pre, isPutEffect e = true) (k : String)
    (records : List WRecord) (h : lookupKey k s.raw = some records) :
    lookupKey k
      (((pre ++ [StageEffect.moveRawToArchive k]).foldl applyEffect s).raw) =
      none ∧
    lookupKey k
      (((pre ++ [StageEffect.moveRawToArchive k]).foldl applyEffect s).archive) =
      some records := by
  rw [List.foldl_append]
  obtain ⟨hr, ha⟩ := foldl_puts_preserve pre hp s
  set s1 := pre.foldl applyEffect s with hs1
  have hl : lookupKey k s1.raw = some records := by rw [hr]; exact h
  simp only [List.foldl_cons, List.foldl_nil, applyEffect, hl]
  constructor
  · exact lookupKey_removeKey k s1.raw
  · rw [lookupKey_append_of_none k _ _ (lookupKey_removeKey k s1.archive)]
    rw [lookupKey_cons, if_pos rfl]

theorem validateStageEffects_shape (now k : String) (records : List WRecord) :
    ∃ pre, validateStageEffects now k records =
        pre ++ [StageEffect.moveRawToArchive k] ∧
      ∀ e ∈ pre, isPutEffect e = true := by
  unfold validateStageEffects
  rcases hv : (processOneBatch now records).validatedBlob with _ | dv <;>
    rcases hr2 : (processOneBatch now records).rejectedBlob with _ | dr <;>
    simp only [hv, hr2]
  · exact ⟨[], rfl, by simp⟩
  · exact ⟨[StageEffect.putRejected (k ++ "_rejected") dr], rfl, by
      simp [isPutEffect]⟩
  · exact ⟨[StageEffect.putValidated (k ++ "_valid") dv], rfl, by
      simp [isPutEffect]⟩
  · exact ⟨[StageEffect.putValidated (k ++ "_valid") dv,
      StageEffect.putRejected (k ++ "_rejected") dr], rfl, by
        intro e he
        rcases List.mem_cons.mp he with h1 | h1
        · rw [h1]; rfl
        · rcases List.mem_singleton.mp h1 with rfl; rfl⟩

/-- C1 (spec-modelled, see `validateStageEffects`): when the S3 Validation
Stage processes a raw batch, the effect trace ends with the retire move —
every effect before it is an output write, so retiring happens only after
both outputs are written — and afterwards the raw blob is absent from raw
staging and present in archive with its original content. -/
theorem validation_stage_retires_raw_blob (now k : String)
    (records : List WRecord) (s : S3State)
    (h : lookupKey k s.raw = some records) :
    (validateStageEffects now k records).getLast? =
      some (StageEffect.moveRawToArchive k) ∧
    (∀ e ∈ (validateStageEffects now k records).dropLast,
      isPutEffect e = true) ∧
    lookupKey k (processS3Batch now s k).raw = none ∧
    lookupKey k (processS3Batch now s k).archive = some records := by
  have hstage : processS3Batch now s k =
      (validateStageEffects now k records).foldl applyEffect s := by
    unfold processS3Batch
    rw [h]
  obtain ⟨pre, hsp, hput⟩ := validateStageEffects_shape now k records
  rw [hstage, hsp]
  refine ⟨?_, ?_, apply_pre_move s pre hput k records h⟩
  · rw [List.getLast?_concat]
  · rw [List.dropLast_concat]
    exact hput

/-- A one-raw-blob store for the C1 witness. -/
def s3W : S3State :=
  { raw := [("weather_batch_001.json", [rNameTempOnly])]
    validated := [], rejected := [], archive := [] }

/-- C1 witness: a store holding one raw batch of one record. -/
theorem validation_stage_retires_raw_blob_witness :
    (validateStageEffects "T" "weather_batch_001.json" [rNameTempOnly]).getLast? =
      some (StageEffect.moveRawToArchive "weather_batch_001.json") ∧
    (∀ e ∈ (validateStageEffects "T" "weather_batch_001.json"
        [rNameTempOnly]).dropLast, isPutEffect e = true) ∧
    lookupKey "weather_batch_001.json"
      (processS3Batch "T" s3W "weather_batch_001.json").raw = none ∧
    lookupKey "weather_batch_001.json"
      (processS3Batch "T" s3W "weather_batch_001.json").archive =
      some [rNameTempOnly] :=
  validation_stage_retires_raw_blob "T" "weather_batch_001.json"
    [rNameTempOnly] s3W (by decide)

/-! ## Extraction Stage theorems (batch assembly, fetch-failure tolerance) -/

/-- The records a loop state holds: already-saved batches then the buffer. -/
def content (st : ExtractionState) : List WRecord :=
  (st.savedBatches.map (·.2)).flatten ++ st.buffer

/-- Loop invariant of `run_extraction`: every saved batch is exactly full,
the buffer is strictly under the batch size, batch numbers are
`1, 2, …` in order, and `batch_count` is the next number to assign. -/
def GoodState (n : Nat) (st : ExtractionState) : Prop :=
  (∀ b ∈ st.savedBatches, b.2.length = n) ∧
  st.buffer.length < n ∧
  st.savedBatches.map Prod.fst = List.range' 1 st.savedBatches.length ∧
  st.batch_count = st.savedBatches.length + 1

theorem extractStep_invariant (n : Nat) (hn : 0 < n) (st : ExtractionState)
    (x : Option WRecord) (h : GoodState n st) :
    GoodState n (extractStep n st x) ∧
      content (extractStep n st x) = content st ++ x.toList := by
  obtain ⟨hsz, hbuf, hseq, hcnt⟩ := h
  cases x with
  | none =>
    have hlt : ¬ n ≤ st.buffer.length := Nat.not_le.mpr hbuf
    simp only [extractStep, hlt, if_false]
    exact ⟨⟨hsz, hbuf, hseq, hcnt⟩, by simp [content, Option.toList]⟩
  | some d =>
    by_cases hfull : n ≤ st.buffer.length + 1
    · have hlen : st.buffer.length + 1 = n := Nat.le_antisymm hbuf hfull
      simp only [extractStep, List.length_append, List.length_cons,
        List.length_nil, zero_add, hfull, if_true]
      refine ⟨⟨?_, hn, ?_, ?_⟩, ?_⟩
      · intro b hb
        rcases List.mem_append.mp hb with hb | hb
        · exact hsz b hb
        · rcases List.mem_singleton.mp hb with rfl
          simpa using hlen
      · rw [List.map_append, hseq, List.length_append]
        simp only [List.map_cons, List.map_nil, List.length_cons,
          List.length_nil]
        rw [hcnt, List.range'_concat]
        simp [Nat.add_comm]
      · simp [hcnt, List.length_append]
      · simp only [content, List.map_append, List.flatten_append,
          Option.toList]
        simp [List.flatten]
    · simp only [extractStep, List.length_append, List.length_cons,
        List.length_nil, zero_add, hfull, if_false]
      refine ⟨⟨hsz, ?_, hseq, hcnt⟩, ?_⟩
      · simpa using Nat.lt_of_le_of_ne (Nat.succ_le_of_lt hbuf)
          (fun he => hfull (le_of_eq he.symm))
      · simp [content, Option.toList, List.append_assoc]

theorem foldl_extract_invariant (n : Nat) (hn : 0 < n) :
    ∀ (results : List (Option WRecord)) (st : ExtractionState),
      GoodState n st →
      GoodState n (results.foldl (extractStep n) st) ∧
        content (results.foldl (extractStep n) st) =
          content st ++ results.reduceOption := by
  intro results
  induction results with
  | nil => intro st h; exact ⟨h, by simp⟩
  | cons x xs ih =>
    intro st h
    obtain ⟨h1, h2⟩ := extractStep_invariant n hn st x h
    obtain ⟨h3, h4⟩ := ih _ h1
    refine ⟨h3, ?_⟩
    rw [List.foldl_cons] at *
    rw [h4, h2, List.append_assoc]
    congr 1
    cases x with
    | none => simp [Option.toList, List.reduceOption_cons_of_none]
    | some d => simp [Option.toList, List.reduceOption_cons_of_some]

theorem reduceOption_map_some (l : List WRecord) :
    (l.map some).reduceOption = l := by
  induction l with
  | nil => rfl
  | cons x t ih => simp [List.reduceOption_cons_of_some, ih]

theorem reduceOption_all_none (l : List (Option WRecord))
    (h : ∀ x ∈ l, x = none) : l.reduceOption = [] := by
  induction l with
  | nil => rfl
  | cons x t ih =>
    rw [h x (List.mem_cons_self x t), List.reduceOption_cons_of_none]
    exact ih (fun y hy => h y (List.mem_cons_of_mem _ hy))

/-- The initial loop state of `run_extraction` satisfies the invariant. -/
theorem initial_state_good (n : Nat) (hn : 0 < n) :
    GoodState n ⟨[], [], 1, 0⟩ :=
  ⟨by simp, hn, by simp, rfl⟩

/-- The loop state after all fetch results are processed. -/
def finalState (n : Nat) (results : List (Option WRecord)) : ExtractionState :=
  results.foldl (extractStep n) ⟨[], [], 1, 0⟩

theorem run_extraction_eq (n : Nat) (results : List (Option WRecord)) :
    run_extraction n results =
      if (finalState n results).buffer.isEmpty then
        (finalState n results).savedBatches
      else (finalState n results).savedBatches ++
        [((finalState n results).batch_count, (finalState n results).buffer)] :=
  rfl

theorem finalState_good (n : Nat) (hn : 0 < n)
    (results : List (Option WRecord)) :
    GoodState n (finalState n results) ∧
      ((finalState n results).savedBatches.map (·.2)).flatten ++
        (finalState n results).buffer = results.reduceOption := by
  obtain ⟨h1, h2⟩ :=
    foldl_extract_invariant n hn results ⟨[], [], 1, 0⟩ (initial_state_good n hn)
  exact ⟨h1, by simpa [content, finalState] using h2⟩

theorem run_extraction_spec (n : Nat) (hn : 0 < n)
    (results : List (Option WRecord)) :
    ((run_extraction n results).map (·.2)).flatten = results.reduceOption ∧
    (∀ b ∈ run_extraction n results, b.2.length ≤ n ∧ b.2 ≠ []) ∧
    (run_extraction n results).map Prod.fst =
      List.range' 1 (run_extraction n results).length := by
  obtain ⟨⟨hsz, hbuf, hseq, hcnt⟩, hcont⟩ := finalState_good n hn results
  rw [run_extraction_eq]
  by_cases hbe : (finalState n results).buffer.isEmpty
  · have hb0 : (finalState n results).buffer = [] := List.isEmpty_iff.mp hbe
    rw [if_pos hbe]
    refine ⟨?_, fun b hb => ⟨le_of_eq (hsz b hb), ?_⟩, hseq⟩
    · rw [← hcont, hb0, List.append_nil]
    · have hbn := hsz b hb
      intro hnil
      rw [hnil] at hbn
      simp at hbn
      omega
  · rw [if_neg hbe]
    refine ⟨?_, fun b hb => ?_, ?_⟩
    · rw [← hcont]
      simp [List.flatten_append]
    · rcases List.mem_append.mp hb with hb | hb
      · refine ⟨le_of_eq (hsz b hb), ?_⟩
        have hbn := hsz b hb
        intro hnil
        rw [hnil] at hbn
        simp at hbn
        omega
      · rcases List.mem_singleton.mp hb with rfl
        refine ⟨le_of_lt hbuf, ?_⟩
        intro hnil
        dsimp only at hnil
        exact hbe (by rw [hnil]; rfl)
    · rw [List.map_append, hseq, hcnt]
      simp only [List.map_cons, List.map_nil, List.length_append,
        List.length_cons, List.length_nil]
      rw [List.range'_concat]
      simp [Nat.add_comm]

/-- C8: a fetch failure never aborts the run — the successfully fetched
records, in order, are exactly what is batched; every written batch is
nonempty; and if every fetch fails the stage completes with zero batches
written (the loop is total: there is no fatal-error outcome to model). -/
theorem extraction_fetch_failures_nonfatal (n : Nat)
    (results : List (Option WRecord)) (hn : 0 < n) :
    ((run_extraction n results).map (·.2)).flatten = results.reduceOption ∧
    (∀ b ∈ run_extraction n results, b.2 ≠ []) ∧
    ((∀ x ∈ results, x = none) → run_extraction n results = []) := by
  obtain ⟨hjoin, hsz, _⟩ := run_extraction_spec n hn results
  refine ⟨hjoin, fun b hb => (hsz b hb).2, fun hall => ?_⟩
  have hflat : ((run_extraction n results).map (·.2)).flatten = [] :=
    hjoin.trans (reduceOption_all_none results hall)
  have hall2 := List.flatten_eq_nil_iff.mp hflat
  cases hF : run_extraction n results with
  | nil => rfl
  | cons b t =>
    have hb2 : b.2 = [] := by
      refine hall2 b.2 ?_
      rw [hF]
      exact List.mem_map_of_mem _ (List.mem_cons_self b t)
    have := (hsz b (by rw [hF]; exact List.mem_cons_self b t)).2
    exact absurd hb2 this

/-- C8 witness: a total transport outage (three cities, all fetches fail)
completes with zero batches written. -/
theorem extraction_total_outage_witness :
    run_extraction 50 [none, none, none] = [] :=
  (extraction_fetch_failures_nonfatal 50 [none, none, none]
    (by decide)).2.2 (by decide)

/-- C6: the batch assembler splits the input into consecutive chunks whose
concatenation is the input (nothing padded, nothing dropped), each of at
most `batchSize` records and never empty, with batch numbers `1, 2, …` in
input order; 73 records at batch size 50 give exactly the batches
`[50, 23]` numbered `[1, 2]`. -/
theorem batch_assembler_chunks (records : List WRecord) (n : Nat)
    (hn : 0 < n) :
    ((assemble records n).map (·.2)).flatten = records ∧
    (∀ b ∈ assemble records n, b.2.length ≤ n ∧ b.2 ≠ []) ∧
    (assemble records n).map Prod.fst =
      List.range' 1 (assemble records n).length ∧
    (records.length = 73 → n = 50 →
      (assemble records n).map (fun b => b.2.length) = [50, 23] ∧
      (assemble records n).map Prod.fst = [1, 2]) := by
  obtain ⟨hjoin, hsz, hseq⟩ := run_extraction_spec n hn (records.map some)
  rw [reduceOption_map_some] at hjoin
  refine ⟨hjoin, hsz, hseq, fun h73 h50 => ?_⟩
  subst h50
  obtain ⟨⟨gsz, gbuf, gseq, gcnt⟩, gcont⟩ :=
    finalState_good 50 (by norm_num) (records.map some)
  rw [reduceOption_map_some] at gcont
  set stf := finalState 50 (records.map some) with hstf
  have hK : (stf.savedBatches.map (·.2)).flatten.length = 50 *
      stf.savedBatches.length := by
    rw [List.length_flatten]
    have hall : ∀ x ∈ (stf.savedBatches.map (·.2)).map List.length,
        x = 50 := by
      intro x hx
      rcases List.mem_map.mp hx with ⟨l, hl, rfl⟩
      rcases List.mem_map.mp hl with ⟨b, hb, rfl⟩
      exact gsz b hb
    rw [List.sum_eq_card_nsmul _ 50 hall, List.length_map, List.length_map,
      smul_eq_mul, Nat.mul_comm]
  have hlen : 50 * stf.savedBatches.length + stf.buffer.length = 73 := by
    rw [← hK, ← List.length_append, gcont, h73]
  have hK1 : stf.savedBatches.length = 1 := by omega
  have hbl : stf.buffer.length = 23 := by omega
  obtain ⟨b, hb⟩ := List.length_eq_one.mp hK1
  have hbfull : b.2.length = 50 := gsz b (by rw [hb]; exact List.mem_cons_self b [])
  have hbe : stf.buffer.isEmpty = false := by
    cases hbuf : stf.buffer with
    | nil => rw [hbuf] at hbl; simp at hbl
    | cons x t => rfl
  have hb1 : b.1 = 1 := by
    have := gseq
    rw [hb] at this
    simp [List.range'] at this
    exact this
  have hout : assemble records 50 = [b, (stf.batch_count, stf.buffer)] := by
    show run_extraction 50 (records.map some) = _
    rw [run_extraction_eq, ← hstf, hbe]
    simp [hb]
  have hcnt2 : stf.batch_count = 2 := by rw [gcnt, hK1]
  rw [hout, hcnt2]
  constructor
  · simp [hbfull, hbl]
  · simp [hb1]

/-- C6 witness: 73 records, batch size 50. -/
theorem batch_assembler_chunks_witness :
    (assemble (List.replicate 73 emptyRec) 50).map (fun b => b.2.length) =
      [50, 23] ∧
    (assemble (List.replicate 73 emptyRec) 50).map Prod.fst = [1, 2] :=
  (batch_assembler_chunks (List.replicate 73 emptyRec) 50 (by decide)).2.2.2
    (by decide) rfl

/-! ## Load Stage theorems: merge idempotence and row-level failures -/

/-- The three mutable fields set by the `WHEN MATCHED` update. -/
def setMut (t src : WRow) : WRow :=
  { t with temperature := src.temperature
           humidity := src.humidity
           weather_description := src.weather_description }

theorem updateRow_eq (src t : WRow) :
    updateRow src t = if isMatch t src then setMut t src else t := rfl

theorem updateRow_city (src t : WRow) : (updateRow src t).city = t.city := by
  rw [updateRow_eq]; split <;> rfl

theorem updateRow_timestamp (src t : WRow) :
    (updateRow src t).timestamp = t.timestamp := by
  rw [updateRow_eq]; split <;> rfl

theorem isMatch_updateRow (src' t src : WRow) :
    isMatch (updateRow src' t) src = isMatch t src := by
  unfold isMatch
  rw [updateRow_city, updateRow_timestamp]

theorem isMatch_self (p : WRow) (h : p.city.isSome = true) :
    isMatch p p = true := by
  rcases Option.isSome_iff_exists.mp h with ⟨s, hs⟩
  simp [isMatch, sqlEqStr, hs]

theorem setMut_setMut (t a b : WRow) : setMut (setMut t a) b = setMut t b := rfl

theorem setMut_city (t src : WRow) : (setMut t src).city = t.city := rfl

theorem setMut_timestamp (t src : WRow) :
    (setMut t src).timestamp = t.timestamp := rfl

theorem setMut_eq_self (t q : WRow) (h1 : t.temperature = q.temperature)
    (h2 : t.humidity = q.humidity)
    (h3 : t.weather_description = q.weather_description) : setMut t q = t := by
  unfold setMut
  rw [← h1, ← h2, ← h3]

/-- The last row of `P` whose merge key matches target row `t`. -/
def lastMatch (t : WRow) (P : List WRow) : Option WRow :=
  P.reverse.find? (fun p => isMatch t p)

theorem lastMatch_nil (t : WRow) : lastMatch t [] = none := rfl

theorem lastMatch_cons (t p : WRow) (P : List WRow) :
    lastMatch t (p :: P) =
      (lastMatch t P).or (if isMatch t p then some p else none) := by
  unfold lastMatch
  rw [List.reverse_cons, List.find?_append]
  congr 1
  cases hm : isMatch t p <;> simp [List.find?, hm]

theorem lastMatch_eq_none (t : WRow) (P : List WRow) :
    lastMatch t P = none ↔ ∀ p ∈ P, isMatch t p = false := by
  unfold lastMatch
  rw [List.find?_eq_none]
  constructor
  · intro h p hp
    have := h p (List.mem_reverse.mpr hp)
    simpa using this
  · intro h p hp
    simp [h p (List.mem_reverse.mp hp)]

theorem lastMatch_congr (t t' : WRow) (P : List WRow) (hc : t'.city = t.city)
    (ht : t'.timestamp = t.timestamp) : lastMatch t' P = lastMatch t P := by
  unfold lastMatch
  congr 1
  funext p
  unfold isMatch
  rw [hc, ht]

/-- Re-running the matched-update of every row of `P`, in order, on one
target row. -/
def foldUpd (P : List WRow) (t : WRow) : WRow :=
  P.foldl (fun s p => updateRow p s) t

theorem foldUpd_nil (t : WRow) : foldUpd [] t = t := rfl

theorem foldUpd_cons (p : WRow) (P : List WRow) (t : WRow) :
    foldUpd (p :: P) t = foldUpd P (updateRow p t) := rfl

theorem foldUpd_eq (P : List WRow) (t : WRow) :
    foldUpd P t = match lastMatch t P with
      | none => t
      | some q => setMut t q := by
  induction P generalizing t with
  | nil => rfl
  | cons p P ih =>
    rw [foldUpd_cons, lastMatch_cons, updateRow_eq]
    by_cases hm : isMatch t p = true
    · rw [if_pos hm, if_pos hm]
      have hkey : lastMatch (setMut t p) P = lastMatch t P :=
        lastMatch_congr t (setMut t p) P (setMut_city t p) (setMut_timestamp t p)
      rw [ih (setMut t p), hkey]
      cases hl : lastMatch t P with
      | none => simp [setMut_setMut]
      | some q => simp [setMut_setMut]
    · rw [if_neg hm, if_neg hm]
      rw [ih t]
      cases hl : lastMatch t P with
      | none => simp
      | some q => simp

theorem mergeRow_pos (w : List WRow) (src : WRow)
    (h : w.any (fun t => isMatch t src) = true) :
    mergeRow w src = w.map (updateRow src) := by
  unfold mergeRow
  rw [if_pos h]

theorem mergeRow_neg (w : List WRow) (src : WRow)
    (h : ¬ w.any (fun t => isMatch t src) = true) :
    mergeRow w src = w ++ [src] := by
  unfold mergeRow
  rw [if_neg h]

/-- A row of the merged warehouse matching no source row of `P` was
already present before the merge. -/
theorem mem_of_foldl_merge_no_match (P : List WRow) :
    ∀ (w : List WRow) (t : WRow), t ∈ P.foldl mergeRow w →
      (∀ p ∈ P, isMatch t p = false) →
      (∀ p ∈ P, p.city.isSome = true) → t ∈ w := by
  induction P with
  | nil => exact fun w t ht _ _ => ht
  | cons p P ih =>
    intro w t ht hno hc
    have ht2 : t ∈ mergeRow w p :=
      ih (mergeRow w p) t ht (fun q hq => hno q (List.mem_cons_of_mem _ hq))
        (fun q hq => hc q (List.mem_cons_of_mem _ hq))
    have hnp : isMatch t p = false := hno p (List.mem_cons_self p P)
    by_cases hany : w.any (fun s => isMatch s p) = true
    · rw [mergeRow_pos w p hany] at ht2
      rcases List.mem_map.mp ht2 with ⟨t0, ht0, rfl⟩
      rw [updateRow_eq] at hnp ⊢
      by_cases hm0 : isMatch t0 p = true
      · rw [if_pos hm0] at hnp
        have : isMatch (setMut t0 p) p = isMatch t0 p := by
          unfold isMatch
          rw [setMut_city, setMut_timestamp]
        rw [this, hm0] at hnp
        exact Bool.noConfusion hnp
      · rw [if_neg hm0]
        exact ht0
    · rw [mergeRow_neg w p hany] at ht2
      rcases List.mem_append.mp ht2 with ht2 | ht2
      · exact ht2
      · rcases List.mem_singleton.mp ht2 with rfl
        rw [isMatch_self t (hc t (List.mem_cons_self t P))] at hnp
        exact Bool.noConfusion hnp

/-- Merging preserves an existing key match. -/
theorem mergeRow_mono (w : List WRow) (src' src : WRow)
    (h : ∃ t ∈ w, isMatch t src' = true) :
    ∃ t ∈ mergeRow w src, isMatch t src' = true := by
  rcases h with ⟨t, ht, hm⟩
  by_cases hany : w.any (fun s => isMatch s src) = true
  · rw [mergeRow_pos w src hany]
    exact ⟨updateRow src t, List.mem_map_of_mem _ ht,
      by rw [isMatch_updateRow]; exact hm⟩
  · rw [mergeRow_neg w src hany]
    exact ⟨t, List.mem_append_left _ ht, hm⟩

theorem foldl_merge_mono (P : List WRow) :
    ∀ (w : List WRow) (src' : WRow), (∃ t ∈ w, isMatch t src' = true) →
      ∃ t ∈ P.foldl mergeRow w, isMatch t src' = true := by
  induction P with
  | nil => exact fun w src' h => h
  | cons p P ih =>
    intro w src' h
    exact ih (mergeRow w p) src' (mergeRow_mono w src' p h)

/-- After merging a row with a non-null city, some warehouse row matches it. -/
theorem mergeRow_self_match (w : List WRow) (src : WRow)
    (h : src.city.isSome = true) :
    ∃ t ∈ mergeRow w src, isMatch t src = true := by
  by_cases hany : w.any (fun s => isMatch s src) = true
  · rcases List.any_eq_true.mp hany with ⟨t, ht, hm⟩
    rw [mergeRow_pos w src hany]
    exact ⟨updateRow src t, List.mem_map_of_mem _ ht,
      by rw [isMatch_updateRow]; exact hm⟩
  · rw [mergeRow_neg w src hany]
    exact ⟨src, List.mem_append_right _ (List.mem_singleton_self src),
      isMatch_self src h⟩

/-- After merging all of `P`, every source row of `P` has a matching
warehouse row. -/
theorem exists_match_foldl (P : List WRow) :
    ∀ (w : List WRow), (∀ p ∈ P, p.city.isSome = true) →
      ∀ p ∈ P, ∃ t ∈ P.foldl mergeRow w, isMatch t p = true := by
  induction P with
  | nil => exact fun w _ p hp => absurd hp (List.not_mem_nil p)
  | cons q P ih =>
    intro w hc p hp
    rcases List.mem_cons.mp hp with rfl | hp
    · exact foldl_merge_mono P (mergeRow w p) p
        (mergeRow_self_match w p (hc p (List.mem_cons_self p P)))
    · exact ih (mergeRow w q) (fun x hx => hc x (List.mem_cons_of_mem _ hx)) p hp

theorem map_foldUpd_nil (w : List WRow) : w.map (foldUpd []) = w := by
  induction w with
  | nil => rfl
  | cons a t ihw => rw [List.map_cons, ihw]; rfl

/-- When every source row already has a match, the merge fold is a map of
per-row updates. -/
theorem foldl_merge_all_match (P : List WRow) :
    ∀ (w : List WRow), (∀ p ∈ P, ∃ t ∈ w, isMatch t p = true) →
      P.foldl mergeRow w = w.map (foldUpd P) := by
  induction P with
  | nil =>
    intro w _
    rw [List.foldl_nil, map_foldUpd_nil]
  | cons p P ih =>
    intro w h
    have hany : w.any (fun s => isMatch s p) = true := by
      rcases h p (List.mem_cons_self p P) with ⟨t, ht, hm⟩
      exact List.any_eq_true.mpr ⟨t, ht, hm⟩
    rw [List.foldl_cons, mergeRow_pos w p hany]
    have h2 : ∀ q ∈ P, ∃ t ∈ w.map (updateRow p), isMatch t q = true := by
      intro q hq
      rcases h q (List.mem_cons_of_mem _ hq) with ⟨t, ht, hm⟩
      exact ⟨updateRow p t, List.mem_map_of_mem _ ht,
        by rw [isMatch_updateRow]; exact hm⟩
    rw [ih (w.map (updateRow p)) h2, List.map_map]
    rfl

/-- Invariant of the first merge pass: every warehouse row matching some
source row of `P` carries the mutable fields of the LAST matching source
row. -/
theorem mut_lastMatch (P : List WRow) :
    ∀ (w : List WRow), (∀ p ∈ P, p.city.isSome = true) →
      ∀ t ∈ P.foldl mergeRow w, ∀ q, lastMatch t P = some q →
        t.temperature = q.temperature ∧ t.humidity = q.humidity ∧
          t.weather_description = q.weather_description := by
  induction P with
  | nil => intro w _ t _ q hq; exact Option.noConfusion hq
  | cons p P ih =>
    intro w hc t ht q hq
    have hc' : ∀ x ∈ P, x.city.isSome = true :=
      fun x hx => hc x (List.mem_cons_of_mem _ hx)
    rw [List.foldl_cons] at ht
    rw [lastMatch_cons] at hq
    cases hl : lastMatch t P with
    | some q' =>
      rw [hl] at hq
      simp only [Option.or_some] at hq
      have hqq : q = q' := (Option.some.inj hq).symm
      subst hqq
      exact ih (mergeRow w p) hc' t ht q hl
    | none =>
      rw [hl] at hq
      simp only [Option.none_or] at hq
      have hno : ∀ x ∈ P, isMatch t x = false := (lastMatch_eq_none t P).mp hl
      have ht2 : t ∈ mergeRow w p := mem_of_foldl_merge_no_match P _ t ht hno hc'
      by_cases hm : isMatch t p = true
      · rw [if_pos hm] at hq
        have hqq : q = p := (Option.some.inj hq).symm
        subst hqq
        by_cases hany : w.any (fun s => isMatch s q) = true
        · rw [mergeRow_pos w q hany] at ht2
          rcases List.mem_map.mp ht2 with ⟨t0, ht0, rfl⟩
          rw [updateRow_eq] at hm ⊢
          by_cases hm0 : isMatch t0 q = true
          · rw [if_pos hm0]
            exact ⟨rfl, rfl, rfl⟩
          · rw [if_neg hm0] at hm ⊢
            exact absurd hm hm0
        · rw [mergeRow_neg w q hany] at ht2
          rcases List.mem_append.mp ht2 with ht2 | ht2
          · exact absurd (List.any_eq_true.mpr ⟨t, ht2, hm⟩) hany
          · rcases List.mem_singleton.mp ht2 with rfl
            exact ⟨rfl, rfl, rfl⟩
      · rw [if_neg hm] at hq
        exact Option.noConfusion hq

/-- Idempotence of the merge pass: merging the same source rows into an
already-merged warehouse changes nothing (every re-merge is an update
writing back the values the row already has). -/
theorem foldl_merge_idem (P w : List WRow)
    (hc : ∀ p ∈ P, p.city.isSome = true) :
    P.foldl mergeRow (P.foldl mergeRow w) = P.foldl mergeRow w := by
  have hmatch : ∀ p ∈ P, ∃ t ∈ P.foldl mergeRow w, isMatch t p = true :=
    exists_match_foldl P w hc
  rw [foldl_merge_all_match P (P.foldl mergeRow w) hmatch]
  have hpt : ∀ t ∈ P.foldl mergeRow w, foldUpd P t = t := by
    intro t ht
    rw [foldUpd_eq]
    cases hl : lastMatch t P with
    | none => rfl
    | some q =>
      obtain ⟨h1, h2, h3⟩ := mut_lastMatch P w hc t ht q hl
      exact setMut_eq_self t q h1 h2 h3
  rw [List.map_congr_left hpt]
  exact List.map_id' (List.foldl mergeRow w P)

/-- Merging pairwise-unmatched fresh rows into a warehouse with no
matching rows appends them all. -/
theorem foldl_merge_fresh (P : List WRow) :
    ∀ (w : List WRow), (∀ p ∈ P, ∀ t ∈ w, isMatch t p = false) →
      P.Pairwise (fun a b => isMatch a b = false) →
      P.foldl mergeRow w = w ++ P := by
  induction P with
  | nil => intro w _ _; rw [List.foldl_nil, List.append_nil]
  | cons p P ih =>
    intro w hw hp
    have hany : ¬ w.any (fun s => isMatch s p) = true := by
      intro hany
      rcases List.any_eq_true.mp hany with ⟨t, ht, hm⟩
      rw [hw p (List.mem_cons_self p P) t ht] at hm
      exact Bool.noConfusion hm
    rw [List.foldl_cons, mergeRow_neg w p hany]
    rw [ih (w ++ [p]) ?_ (List.Pairwise.of_cons hp)]
    · rw [List.append_assoc]
      rfl
    · intro q hq t ht
      rcases List.mem_append.mp ht with ht | ht
      · exact hw q (List.mem_cons_of_mem _ hq) t ht
      · rcases List.mem_singleton.mp ht with rfl
        exact (List.pairwise_cons.mp hp).1 q hq

/-- Whether the field-extraction phase of `load_batch` succeeds for a record. -/
def extractOk (r : WRecord) : Bool := (extractRow r).isSome

/-- The rows actually merged by `load_batch`: those of the prefix before
the first extraction failure whose merge execution succeeds. -/
def prefRows (execOk : WRow → Bool) (records : List WRecord) : List WRow :=
  ((records.takeWhile extractOk).filterMap extractRow).filter execOk

theorem loadRecords_eq (execOk : WRow → Bool) :
    ∀ (records : List WRecord) (w : List WRow),
      loadRecords execOk w records =
        ((prefRows execOk records).foldl mergeRow w, records.all extractOk,
          (prefRows execOk records).length) := by
  intro records
  induction records with
  | nil => intro w; rfl
  | cons r rest ih =>
    intro w
    cases hx : extractRow r with
    | none =>
      have hok : extractOk r = false := by simp [extractOk, hx]
      simp [loadRecords, hx, prefRows, List.takeWhile_cons, hok]
    | some row =>
      have hok : extractOk r = true := by simp [extractOk, hx]
      by_cases he : execOk row = true
      · simp [loadRecords, hx, he, prefRows, List.takeWhile_cons, hok,
          List.filterMap_cons, ih]
      · simp [loadRecords, hx, he, prefRows, List.takeWhile_cons, hok,
          List.filterMap_cons, ih]

theorem run_loading_eq (execOk : WRow → Bool) :
    ∀ (files : List (String × List WRecord)) (w : List WRow),
      (run_loading execOk w files).2.2 =
        files.filter (fun f => f.2.all extractOk) ∧
      (run_loading execOk w files).2.1 =
        files.filter (fun f => !f.2.all extractOk) := by
  intro files
  induction files with
  | nil => intro w; exact ⟨rfl, rfl⟩
  | cons f rest ih =>
    intro w
    obtain ⟨k, records⟩ := f
    have hres : (loadRecords execOk w records).2.1 = records.all extractOk := by
      rw [loadRecords_eq]
    by_cases hall : records.all extractOk = true
    · simp [run_loading, hres, hall, List.filter_cons,
        ih (loadRecords execOk w records).1]
    · simp [run_loading, hres, hall, List.filter_cons,
        ih (loadRecords execOk w records).1,
        Bool.not_eq_true _ ▸ hall]

theorem basic_valid_name (r : WRecord) (h : (basicValidate r).1 = true) :
    falsyStr (getName r) = false := by
  cases hx : falsyStr (getName r) with
  | false => rfl
  | true =>
    have hm : BError.missingCityName ∈ (basicValidate r).2 := by
      simp [basicValidate, hx]
    rw [basic_invalid_of_mem r _ hm] at h
    exact Bool.noConfusion h

theorem isSome_of_falsyStr_false (o : Option String) (h : falsyStr o = false) :
    o.isSome = true := by
  cases o with
  | none => exact absurd h (by simp [falsyStr])
  | some s => rfl

theorem extractRow_city (r : WRecord) (p : WRow) (h : extractRow r = some p) :
    p.city = r.name := by
  unfold extractRow at h
  cases hdt : r.dt with
  | none => rw [hdt] at h; exact Option.noConfusion h
  | some dtv =>
    rw [hdt] at h
    rcases hwe : r.weather with _ | ws
    · rw [hwe] at h
      simp only [] at h
      cases Option.some.inj h
      rfl
    · rw [hwe] at h
      cases ws with
      | nil =>
        simp only [] at h
        exact Option.noConfusion h
      | cons c cs =>
        simp only [] at h
        cases Option.some.inj h
        rfl

theorem isMatch_keys (a b : WRow) (h : isMatch a b = true) :
    a.city = b.city ∧ a.timestamp = b.timestamp := by
  unfold isMatch at h
  rcases Bool.and_eq_true_iff.mp h with ⟨h1, h2⟩
  refine ⟨?_, by simpa using h2⟩
  unfold sqlEqStr at h1
  cases ha : a.city with
  | none => rw [ha] at h1; exact Bool.noConfusion h1
  | some x =>
    cases hb : b.city with
    | none => rw [ha, hb] at h1; exact Bool.noConfusion h1
    | some y =>
      rw [ha, hb] at h1
      simp only [decide_eq_true_eq] at h1
      rw [h1]

theorem prefRows_city (execOk : WRow → Bool) (records : List WRecord)
    (hv : ∀ r ∈ records, (basicValidate r).1 = true) :
    ∀ p ∈ prefRows execOk records, p.city.isSome = true := by
  intro p hp
  have hp2 := List.mem_of_mem_filter hp
  rcases List.mem_filterMap.mp hp2 with ⟨r, hr, hre⟩
  rw [extractRow_city r p hre]
  exact isSome_of_falsyStr_false r.name
    (basic_valid_name r (hv r ((List.takeWhile_prefix extractOk).subset hr)))

theorem filterMap_extract_city (records : List WRecord)
    (hv : ∀ r ∈ records, (basicValidate r).1 = true) :
    ∀ p ∈ records.filterMap extractRow, p.city.isSome = true := by
  intro p hp
  rcases List.mem_filterMap.mp hp with ⟨r, hr, hre⟩
  rw [extractRow_city r p hre]
  exact isSome_of_falsyStr_false r.name (basic_valid_name r (hv r hr))

/-- C2: the Load stage's merge is idempotent. Re-running `load_batch` on
the same validated batch against the warehouse it already produced leaves
the warehouse (and the reported outcome) unchanged; and a batch of
fully-extractable records with pairwise-distinct (city, observation
timestamp) keys loaded into an empty warehouse — then loaded again —
leaves exactly one row per key whose fields are the batch's extracted
values. (The `ingestion_timestamp` column, refreshed on every merge, is
outside the modelled state.) -/
theorem load_stage_idempotent (execOk : WRow → Bool) (w : List WRow)
    (records : List WRecord)
    (hv : ∀ r ∈ records, (basicValidate r).1 = true) :
    loadRecords execOk (loadRecords execOk w records).1 records =
      loadRecords execOk w records ∧
    ((records.all extractOk = true ∧
      ((records.filterMap extractRow).map
        (fun t => (t.city, t.timestamp))).Nodup) →
      (loadRecords (fun _ => true) [] records).1 =
          records.filterMap extractRow ∧
      (loadRecords (fun _ => true)
          (loadRecords (fun _ => true) [] records).1 records).1 =
        records.filterMap extractRow) := by
  have hidem : ∀ (execOk2 : WRow → Bool) (w2 : List WRow),
      loadRecords execOk2 (loadRecords execOk2 w2 records).1 records =
        loadRecords execOk2 w2 records := by
    intro execOk2 w2
    have hcity := prefRows_city execOk2 records hv
    simp only [loadRecords_eq]
    rw [foldl_merge_idem _ _ hcity]
  refine ⟨hidem execOk w, fun hh => ?_⟩
  obtain ⟨hall, hnd⟩ := hh
  have htw : records.takeWhile extractOk = records :=
    List.takeWhile_eq_self_iff.mpr (List.all_eq_true.mp hall)
  have hP : prefRows (fun _ => true) records = records.filterMap extractRow := by
    unfold prefRows
    rw [htw, List.filter_true]
  have hpair : (records.filterMap extractRow).Pairwise
      (fun a b => isMatch a b = false) := by
    have hnd2 : (records.filterMap extractRow).Pairwise
        (fun a b => (a.city, a.timestamp) ≠ (b.city, b.timestamp)) :=
      List.pairwise_map.mp hnd
    refine hnd2.imp ?_
    intro a b hne
    cases him : isMatch a b with
    | false => rfl
    | true =>
      obtain ⟨h1, h2⟩ := isMatch_keys a b him
      exact absurd (by rw [h1, h2]) hne
  have hw1 : (loadRecords (fun _ => true) [] records).1 =
      records.filterMap extractRow := by
    simp only [loadRecords_eq]
    rw [hP, foldl_merge_fresh _ []
      (fun p _ t ht => absurd ht (List.not_mem_nil t)) hpair,
      List.nil_append]
  refine ⟨hw1, ?_⟩
  rw [hidem (fun _ => true) []]
  exact hw1

/-- Two validated, fully-extractable records with distinct merge keys. -/
def rAccra : WRecord :=
  { emptyRec with name := some "Accra"
                  main := some { emptyMain with temp := some 30 }
                  dt := some 100 }

/-- See `rAccra`. -/
def rBerlin : WRecord :=
  { emptyRec with name := some "Berlin"
                  main := some { emptyMain with temp := some 10 }
                  dt := some 200 }

/-- C2 witness: loading the two-record batch twice from an empty warehouse
leaves exactly the batch's two rows. -/
theorem load_stage_idempotent_witness :
    (loadRecords (fun _ => true) [] [rAccra, rBerlin]).1 =
      [rAccra, rBerlin].filterMap extractRow ∧
    (loadRecords (fun _ => true)
        (loadRecords (fun _ => true) [] [rAccra, rBerlin]).1
        [rAccra, rBerlin]).1 =
      [rAccra, rBerlin].filterMap extractRow :=
  (load_stage_idempotent (fun _ => true) [] [rAccra, rBerlin]
    (by decide)).2 ⟨by decide, by decide⟩

/-- C3 (amended): in `load_batch`, only a failure of the merge execution
(`cursor.execute`) is caught per record: such records are skipped and the
remaining records still merged, and `run_loading` archives a batch blob
iff every record of the batch passed the field-extraction phase —
regardless of how many merge-execution failures occurred. A record whose
field extraction raises (missing `dt`, or an explicitly empty `weather`
list) aborts the batch before the remaining records are processed and the
blob stays in validated staging (see the counterexample). -/
theorem load_stage_row_failure_handling (execOk : WRow → Bool)
    (w : List WRow) (records : List WRecord)
    (files : List (String × List WRecord)) (w0 : List WRow) :
    (loadRecords execOk w records).2.1 = records.all extractOk ∧
    (records.all extractOk = true →
      (loadRecords execOk w records).1 =
        ((records.filterMap extractRow).filter execOk).foldl mergeRow w) ∧
    (run_loading execOk w0 files).2.2 =
      files.filter (fun f => f.2.all extractOk) ∧
    (run_loading execOk w0 files).2.1 =
      files.filter (fun f => !f.2.all extractOk) := by
  obtain ⟨harch, hleft⟩ := run_loading_eq execOk files w0
  refine ⟨by rw [loadRecords_eq], fun hall => ?_, harch, hleft⟩
  have htw : records.takeWhile extractOk = records :=
    List.takeWhile_eq_self_iff.mpr (List.all_eq_true.mp hall)
  rw [loadRecords_eq]
  show (prefRows execOk records).foldl mergeRow w = _
  unfold prefRows
  rw [htw]

/-- A validated record (city name and temperature present) with no `dt`:
`datetime.fromtimestamp(record.get('dt'))` raises outside the per-record
`try/except`. -/
def rNoDt : WRecord :=
  { emptyRec with name := some "NoDt"
                  main := some { emptyMain with temp := some 20 } }

/-- A validated record that extracts fine. -/
def rWithDt : WRecord :=
  { emptyRec with name := some "Good"
                  main := some { emptyMain with temp := some 21 }
                  dt := some 7 }

/-- Like `rWithDt` with a different observation time. -/
def rWithDt2 : WRecord :=
  { emptyRec with name := some "Good2"
                  main := some { emptyMain with temp := some 22 }
                  dt := some 8 }

/-- C3 counterexample: a batch whose first record is malformed (missing
`dt`). The failure is NOT caught per record: the second (well-formed)
record is never merged (warehouse stays empty) and the batch blob is left
in validated staging, not retired to archive — the claim's "skipped
without aborting" and "retired regardless" both fail. -/
theorem load_malformed_record_aborts_batch :
    run_loading (fun _ => true) []
      [("weather_batch_001_valid.json", [rNoDt, rWithDt])] =
      ([], [("weather_batch_001_valid.json", [rNoDt, rWithDt])], []) := by
  decide

/-- A merge-execution failure predicate for the C3 witness: the warehouse
rejects the row with observation time 7. -/
def execOkW (row : WRow) : Bool := row.timestamp ≠ 7

/-- C3 witness: with one merge-execution failure, the other record is
still merged and the batch is archived. -/
theorem load_stage_row_failure_witness :
    (loadRecords execOkW [] [rWithDt, rWithDt2]).1 =
      (([rWithDt, rWithDt2].filterMap extractRow).filter execOkW).foldl
        mergeRow [] ∧
    (run_loading execOkW []
        [("weather_batch_001_valid.json", [rWithDt, rWithDt2])]).2.2 =
      [("weather_batch_001_valid.json", [rWithDt, rWithDt2])].filter
        (fun f => f.2.all extractOk) :=
  ⟨(load_stage_row_failure_handling execOkW [] [rWithDt, rWithDt2] [] []).2.1
      (by decide),
   (load_stage_row_failure_handling execOkW [] [rWithDt, rWithDt2]
      [("weather_batch_001_valid.json", [rWithDt, rWithDt2])] []).2.2.1⟩
